import Mathlib

/-!
Verification of the safe-lifetime / borrow-tracking subsystem of
LadybugDB/go-ladybug, together with the two pieces of Go code present in the
repository (`prepared_statement.go` and the iteration driver
`runLargeQueryAndIterate` of `finalizer_race_test.go`).

The ResourceHandle / BorrowGuard / Cursor / RowView core described by the
spec is not itself present under `src/` (only its stress test is), so those
components are modelled from the spec, as noted on each definition.
-/

namespace Lbug

/-! ## ResourceHandle

Modelled from the spec: the ResourceHandle of section 4.1, with lifecycle
state `Open / Closing / Closed`, an active-borrows counter, a
monotonically-set release-requested flag, and instrumentation counting the
external `dispose(NativeBuffer)` calls and the granted / released borrows.
The Go implementation of this component is absent from `src/`.
-/

/-- Lifecycle state of a ResourceHandle (spec section 3). -/
inductive HState where
  | Open
  | Closing
  | Closed
deriving DecidableEq, Repr

/-- Modelled from the spec: a ResourceHandle wraps one NativeBuffer and
tracks lifecycle state, the atomic active-borrows counter and the
release-requested flag.  `freeCount` counts the external
`dispose(NativeBuffer)` invocations; `grantCount` / `releaseCount` count
granted borrows and completed releases (instrumentation for the ordering
claims). -/
structure ResourceHandle where
  state : HState
  activeBorrows : Nat
  releaseRequested : Bool
  freeCount : Nat
  grantCount : Nat
  releaseCount : Nat
deriving DecidableEq, Repr

/-- A freshly created handle: Open, no borrows, nothing freed. -/
def ResourceHandle.init : ResourceHandle :=
  ⟨HState.Open, 0, false, 0, 0, 0⟩

/-- Modelled from the spec: the Closing → Closed transition that performs
the external free.  The free is idempotent-guarded: it fires only when the
state is `Closing` and the active-borrows counter is zero at the moment of
transition. -/
def doFree (h : ResourceHandle) : ResourceHandle :=
  if h.state = HState.Closing ∧ h.activeBorrows = 0 then
    { h with state := HState.Closed, freeCount := h.freeCount + 1 }
  else h

/-- Result of an `acquireBorrow` call (spec section 4.1): a guard is
granted, or the call fails with `Released` (state Closed) or with
`Closing` (a release is already in progress). -/
inductive AcquireResult where
  | granted
  | releasedErr
  | closingErr
deriving DecidableEq, Repr

/-- Modelled from the spec: `acquireBorrow()` grants a BorrowGuard only in
state `Open`, atomically incrementing the active-borrows counter in the
same step as the state check; in `Closing` it fails with the `Closing`
error and in `Closed` with the `Released` error. -/
def acquireBorrow (h : ResourceHandle) : AcquireResult × ResourceHandle :=
  match h.state with
  | HState.Open =>
      (AcquireResult.granted,
        { h with activeBorrows := h.activeBorrows + 1,
                 grantCount := h.grantCount + 1 })
  | HState.Closing => (AcquireResult.closingErr, h)
  | HState.Closed => (AcquireResult.releasedErr, h)

/-- Modelled from the spec: `releaseBorrow()` atomically decrements the
active-borrows counter; if the decrement brings the counter to zero and a
release was requested, it performs the Closing → Closed transition and the
actual free. -/
def releaseBorrow (h : ResourceHandle) : ResourceHandle :=
  let h1 := { h with activeBorrows := h.activeBorrows - 1,
                     releaseCount := h.releaseCount + 1 }
  if h1.activeBorrows = 0 ∧ h1.releaseRequested then doFree h1 else h1

/-- Modelled from the spec: `requestRelease()` sets release-requested and
transitions Open → Closing immediately; if the active-borrows counter is
already zero it transitions Closing → Closed and frees synchronously,
otherwise the free is deferred to the last matching `releaseBorrow()`.  On
a handle that is already Closing or Closed it is a no-op (the Closed state
itself prevents a double free). -/
def requestRelease (h : ResourceHandle) : ResourceHandle :=
  match h.state with
  | HState.Open =>
      doFree { h with state := HState.Closing, releaseRequested := true }
  | HState.Closing => h
  | HState.Closed => h

/-! ### Event traces

An execution is a sequence of atomic steps on one handle: borrow
acquisitions, borrow releases, and release requests (explicit disposal or
the reclamation path — both call `requestRelease`, spec section 4.5). -/

/-- One atomic step of an execution on a ResourceHandle. -/
inductive Event where
  | acquire
  | release
  | reqRelease
deriving DecidableEq, Repr

/-- Apply one event to the handle state. -/
def step (h : ResourceHandle) : Event → ResourceHandle
  | Event.acquire => (acquireBorrow h).2
  | Event.release => releaseBorrow h
  | Event.reqRelease => requestRelease h

/-- Run a trace of events from a starting handle state. -/
def run (h : ResourceHandle) : List Event → ResourceHandle
  | [] => h
  | e :: es => run (step h e) es

/-- A trace is valid when every `release` event matches a previously
granted borrow, i.e. fires while the active-borrows counter is positive. -/
def ValidFrom (h : ResourceHandle) : List Event → Prop
  | [] => True
  | e :: es => (e = Event.release → 0 < h.activeBorrows) ∧ ValidFrom (step h e) es

/-- The state invariant of the borrow protocol. -/
def Inv (h : ResourceHandle) : Prop :=
  (h.releaseRequested = true ↔ h.state ≠ HState.Open) ∧
  (h.state = HState.Closing → 0 < h.activeBorrows) ∧
  (h.freeCount = if h.state = HState.Closed then 1 else 0) ∧
  (h.state = HState.Closed → h.activeBorrows = 0) ∧
  (h.activeBorrows + h.releaseCount = h.grantCount)

theorem inv_init : Inv ResourceHandle.init := by
  refine ⟨by simp [ResourceHandle.init], ?_, ?_, ?_, ?_⟩ <;>
    simp [ResourceHandle.init]

theorem inv_step (h : ResourceHandle) (hv : Inv h) (e : Event)
    (hrel : e = Event.release → 0 < h.activeBorrows) : Inv (step h e) := by
  obtain ⟨h1, h2, h3, h4, h5⟩ := hv
  cases e with
  | acquire =>
      cases hs : h.state with
      | Open =>
          refine ⟨?_, ?_, ?_, ?_, ?_⟩ <;>
            simp_all [step, acquireBorrow, Inv] <;> omega
      | Closing =>
          refine ⟨?_, ?_, ?_, ?_, ?_⟩ <;> simp_all [step, acquireBorrow, Inv]
      | Closed =>
          refine ⟨?_, ?_, ?_, ?_, ?_⟩ <;> simp_all [step, acquireBorrow, Inv]
  | release =>
      have hpos : 0 < h.activeBorrows := hrel rfl
      cases hs : h.state with
      | Open =>
          have hrr : h.releaseRequested = false := by
            by_contra hc
            have := h1.mp (by simpa using hc)
            exact this hs
          refine ⟨?_, ?_, ?_, ?_, ?_⟩ <;>
            simp_all [step, releaseBorrow, doFree] <;> omega
      | Closing =>
          have hrr : h.releaseRequested = true := h1.mpr (by simp [hs])
          by_cases hz : h.activeBorrows - 1 = 0
          · refine ⟨?_, ?_, ?_, ?_, ?_⟩ <;>
              simp_all [step, releaseBorrow, doFree] <;> omega
          · refine ⟨?_, ?_, ?_, ?_, ?_⟩ <;>
              simp_all [step, releaseBorrow, doFree] <;> omega
      | Closed =>
          have : h.activeBorrows = 0 := h4 hs
          omega
  | reqRelease =>
      cases hs : h.state with
      | Open =>
          by_cases hz : h.activeBorrows = 0
          · refine ⟨?_, ?_, ?_, ?_, ?_⟩ <;>
              simp_all [step, requestRelease, doFree] <;> omega
          · refine ⟨?_, ?_, ?_, ?_, ?_⟩ <;>
              simp_all [step, requestRelease, doFree] <;> omega
      | Closing =>
          refine ⟨?_, ?_, ?_, ?_, ?_⟩ <;> simp_all [step, requestRelease]
      | Closed =>
          refine ⟨?_, ?_, ?_, ?_, ?_⟩ <;> simp_all [step, requestRelease]

theorem inv_run (h : ResourceHandle) (hv : Inv h) (t : List Event)
    (ht : ValidFrom h t) : Inv (run h t) := by
  induction t generalizing h with
  | nil => exact hv
  | cons e es ih =>
      obtain ⟨he, hes⟩ := ht
      exact ih (step h e) (inv_step h hv e he) hes

instance instDecidableValidFrom :
    (h : ResourceHandle) → (t : List Event) → Decidable (ValidFrom h t)
  | _, [] => Decidable.isTrue trivial
  | h, e :: es =>
      haveI := instDecidableValidFrom (step h e) es
      inferInstanceAs
        (Decidable ((e = Event.release → 0 < h.activeBorrows) ∧ ValidFrom (step h e) es))

theorem run_append (h : ResourceHandle) (t s : List Event) :
    run h (t ++ s) = run (run h t) s := by
  induction t generalizing h with
  | nil => rfl
  | cons e es ih => simpa [run] using ih (step h e)

theorem validFrom_append (h : ResourceHandle) (t s : List Event)
    (hv : ValidFrom h (t ++ s)) : ValidFrom h t ∧ ValidFrom (run h t) s := by
  induction t generalizing h with
  | nil => exact ⟨trivial, hv⟩
  | cons e es ih =>
      obtain ⟨he, hrest⟩ := hv
      obtain ⟨h1, h2⟩ := ih (step h e) hrest
      exact ⟨⟨he, h1⟩, h2⟩

/-- A single step never re-opens a handle: if the state after the step is
`Open`, it was `Open` before. -/
theorem step_state_open (h : ResourceHandle) (e : Event)
    (hs : (step h e).state = HState.Open) : h.state = HState.Open := by
  obtain ⟨st, ab, rr, fc, gc, rc⟩ := h
  cases e <;> cases st <;>
      simp_all only [step, acquireBorrow, releaseBorrow, requestRelease, doFree] <;>
    split_ifs at hs <;> simp_all

/-- Once a handle has left the `Open` state, no trace brings it back. -/
theorem run_state_ne_open (h : ResourceHandle) (t : List Event)
    (hs : h.state ≠ HState.Open) : (run h t).state ≠ HState.Open := by
  induction t generalizing h with
  | nil => exact hs
  | cons e es ih =>
      refine ih (step h e) fun hc => hs (step_state_open h e hc)

/-- The operation `requestRelease` leaves the handle in a non-`Open` state. -/
theorem requestRelease_state_ne_open (h : ResourceHandle) :
    (requestRelease h).state ≠ HState.Open := by
  cases hst : h.state <;> simp_all [requestRelease, doFree]
  split <;> simp_all

/-- After any trace containing a `reqRelease` event, the state is not
`Open`. -/
theorem run_reqRelease_ne_open (h : ResourceHandle) (t : List Event)
    (hm : Event.reqRelease ∈ t) : (run h t).state ≠ HState.Open := by
  induction t generalizing h with
  | nil => cases hm
  | cons e es ih =>
      rcases List.mem_cons.mp hm with he | hm2
      · subst he
        exact run_state_ne_open _ es (requestRelease_state_ne_open h)
      · exact ih (step h e) hm2

/-- The transition `doFree` bumps the free count only from `Closing` with a zero counter,
and it lands in `Closed`. -/
theorem doFree_char (g : ResourceHandle) (hne : (doFree g).freeCount ≠ g.freeCount) :
    g.state = HState.Closing ∧ g.activeBorrows = 0 ∧
    (doFree g).state = HState.Closed ∧ (doFree g).freeCount = g.freeCount + 1 := by
  unfold doFree at *
  split at hne <;> simp_all

/-- A step that frees goes to `Closed`, with zero active borrows at that
moment and no borrow granted in the same step. -/
theorem step_free_char (h : ResourceHandle) (e : Event)
    (hne : (step h e).freeCount ≠ h.freeCount) :
    h.state ≠ HState.Closed ∧ (step h e).state = HState.Closed ∧
    (step h e).activeBorrows = 0 ∧ (step h e).grantCount = h.grantCount := by
  obtain ⟨st, ab, rr, fc, gc, rc⟩ := h
  cases e <;> cases st <;>
      simp_all only [step, acquireBorrow, releaseBorrow, requestRelease, doFree] <;>
    first
      | exact absurd rfl hne
      | (split_ifs at hne ⊢ <;> simp_all)

/-- C1: over every execution consisting of any sequence of
`acquireBorrow` / `releaseBorrow` calls interleaved with a
`requestRelease()` in which every granted borrow is eventually released,
the NativeBuffer is freed exactly once; moreover the free (the external
dispose call) happens only at the Closing → Closed transition, which
occurs only when the active-borrows counter is 0 at the moment of the
transition and no borrow is granted in the same atomic step. -/
theorem nativeBuffer_freed_exactly_once :
    (∀ t : List Event, ValidFrom ResourceHandle.init t →
      Event.reqRelease ∈ t → (run ResourceHandle.init t).activeBorrows = 0 →
      (run ResourceHandle.init t).freeCount = 1) ∧
    (∀ g : ResourceHandle, (doFree g).freeCount ≠ g.freeCount →
      g.state = HState.Closing ∧ g.activeBorrows = 0 ∧
      (doFree g).state = HState.Closed ∧ (doFree g).freeCount = g.freeCount + 1) ∧
    (∀ (h : ResourceHandle) (e : Event), (step h e).freeCount ≠ h.freeCount →
      h.state ≠ HState.Closed ∧ (step h e).state = HState.Closed ∧
      (step h e).activeBorrows = 0 ∧ (step h e).grantCount = h.grantCount) := by
  refine ⟨?_, doFree_char, step_free_char⟩
  intro t hv hm hz
  obtain ⟨h1, h2, h3, h4, h5⟩ := inv_run ResourceHandle.init inv_init t hv
  have hno : (run ResourceHandle.init t).state ≠ HState.Open :=
    run_reqRelease_ne_open ResourceHandle.init t hm
  cases hst : (run ResourceHandle.init t).state with
  | Open => exact absurd hst hno
  | Closing =>
      have := h2 hst
      omega
  | Closed => simpa [hst] using h3

/-- Witness for C1 on the trace acquire; requestRelease; releaseBorrow. -/
theorem nativeBuffer_freed_exactly_once_witness :
    (run ResourceHandle.init
      [Event.acquire, Event.reqRelease, Event.release]).freeCount = 1 ∧
    ((doFree ⟨HState.Closing, 0, true, 0, 1, 1⟩).state = HState.Closed) ∧
    ((step ⟨HState.Closing, 1, true, 0, 1, 0⟩ Event.release).activeBorrows = 0) := by
  refine ⟨nativeBuffer_freed_exactly_once.1 _ (by decide) (by decide) (by decide),
    (nativeBuffer_freed_exactly_once.2.1 ⟨HState.Closing, 0, true, 0, 1, 1⟩
      (by decide)).2.2.1,
    (nativeBuffer_freed_exactly_once.2.2 ⟨HState.Closing, 1, true, 0, 1, 0⟩
      Event.release (by decide)).2.2.1⟩

/-- C2: once `requestRelease()` has begun, no later `acquireBorrow` is
granted; and every borrow granted before the free has been released by the
moment the free executes: at every point of the trace where the buffer has
been freed, the release count equals the grant count. -/
theorem no_borrow_after_requestRelease (t1 t2 : List Event)
    (hv : ValidFrom ResourceHandle.init (t1 ++ Event.reqRelease :: t2)) :
    (∀ p s : List Event, t2 = p ++ s →
      (acquireBorrow (run ResourceHandle.init (t1 ++ Event.reqRelease :: p))).1 ≠
        AcquireResult.granted) ∧
    (∀ p s : List Event, t1 ++ Event.reqRelease :: t2 = p ++ s →
      1 ≤ (run ResourceHandle.init p).freeCount →
      (run ResourceHandle.init p).releaseCount = (run ResourceHandle.init p).grantCount) := by
  constructor
  · intro p s hps hgr
    have hmem : Event.reqRelease ∈ t1 ++ Event.reqRelease :: p := by simp
    have hopen : (run ResourceHandle.init (t1 ++ Event.reqRelease :: p)).state ≠ HState.Open :=
      run_reqRelease_ne_open _ _ hmem
    unfold acquireBorrow at hgr
    cases hst : (run ResourceHandle.init (t1 ++ Event.reqRelease :: p)).state <;>
      simp_all
  · intro p s hps hfree
    have hvp : ValidFrom ResourceHandle.init p := by
      have := validFrom_append ResourceHandle.init p s (by rw [← hps]; exact hv)
      exact this.1
    obtain ⟨h1, h2, h3, h4, h5⟩ := inv_run ResourceHandle.init inv_init p hvp
    cases hst : (run ResourceHandle.init p).state with
    | Open => simp [hst] at h3; omega
    | Closing => simp [hst] at h3; omega
    | Closed =>
        have hz := h4 hst
        omega

/-- Witness for C2 with t1 = acquire and t2 = acquire; release. -/
theorem no_borrow_after_requestRelease_witness :
    (acquireBorrow (run ResourceHandle.init
      [Event.acquire, Event.reqRelease, Event.acquire])).1 ≠ AcquireResult.granted ∧
    (run ResourceHandle.init
      [Event.acquire, Event.reqRelease, Event.acquire, Event.release]).releaseCount =
      (run ResourceHandle.init
        [Event.acquire, Event.reqRelease, Event.acquire, Event.release]).grantCount := by
  have h := no_borrow_after_requestRelease [Event.acquire] [Event.acquire, Event.release]
    (by decide)
  exact ⟨h.1 [Event.acquire] [Event.release] rfl,
    h.2 [Event.acquire, Event.reqRelease, Event.acquire, Event.release] [] (by decide)
      (by decide)⟩

/-! ## Values, Cursor and RowView

Modelled from the spec (sections 4.3, 4.4 and 6): raw column values read
out of the NativeBuffer, their engine-independent typed conversion, the
forward-only Cursor, and the RowView value accessor.  The Go
implementation of these components is absent from `src/`. -/

/-- Modelled from the spec: a raw column value as it sits in the
NativeBuffer (null, integer, float, string, composite).  The float payload
is kept symbolic (mantissa / exponent pair). -/
inductive RawValue where
  | rNull
  | rInt (i : Int)
  | rFloat (mantissa : Int) (exponent : Int)
  | rString (s : String)
  | rComposite (fields : List RawValue)

/-- Modelled from the spec: an engine-independent typed value. -/
inductive TypedValue where
  | vNull
  | vInt (i : Int)
  | vFloat (mantissa : Int) (exponent : Int)
  | vString (s : String)
  | vComposite (fields : List TypedValue)

mutual

/-- Modelled from the spec: `convert(RawColumnValue) → TypedValue`, the
pure conversion invoked only while a BorrowGuard is held. -/
def convert : RawValue → TypedValue
  | RawValue.rNull => TypedValue.vNull
  | RawValue.rInt i => TypedValue.vInt i
  | RawValue.rFloat m ex => TypedValue.vFloat m ex
  | RawValue.rString s => TypedValue.vString s
  | RawValue.rComposite fs => TypedValue.vComposite (convertList fs)

/-- Pointwise conversion of the fields of a composite value. -/
def convertList : List RawValue → List TypedValue
  | [] => []
  | v :: vs => convert v :: convertList vs

end

/-- Cursor position state (spec section 4.3):
Ready → HasRow → … → Exhausted. -/
inductive CursorState where
  | Ready
  | HasRow (vals : List RawValue)
  | Exhausted

/-- Modelled from the spec: a Cursor over one ResourceHandle; it holds a
strong back-reference to the owning handle. -/
structure Cursor where
  cstate : CursorState
  handle : ResourceHandle

/-- Modelled from the spec: one answer of the engine's
`fetchNextRow(NativeBuffer)` call — a raw row, end of results, or an
engine error; `cancelled` models cancellation of the in-flight call. -/
inductive FetchOutcome where
  | row (vals : List RawValue)
  | endOfResults
  | engineErr (msg : String)
  | cancelled

/-- Result of one `advance()` call (spec section 4.3). -/
inductive AdvanceResult where
  | hasRow
  | noRow
  | iterationErr (msg : String)
  | borrowFailed (r : AcquireResult)
  | cancelledRes
deriving DecidableEq, Repr

/-- Modelled from the spec: `advance()` — on an `Exhausted` cursor it
returns "no row" without contacting the engine; otherwise it acquires a
BorrowGuard, asks the engine for the next row, releases the guard on every
exit path (row, end of results, engine error, cancellation) and returns
whether a row is available.  An engine error leaves the cursor
`Exhausted`.  The returned Bool records whether `fetchNextRow` was
invoked. -/
def advance (c : Cursor) (engine : FetchOutcome) : AdvanceResult × Cursor × Bool :=
  match c.cstate with
  | CursorState.Exhausted => (AdvanceResult.noRow, c, false)
  | _ =>
      match acquireBorrow c.handle with
      | (AcquireResult.granted, h1) =>
          match engine with
          | FetchOutcome.row vals =>
              (AdvanceResult.hasRow, ⟨CursorState.HasRow vals, releaseBorrow h1⟩, true)
          | FetchOutcome.endOfResults =>
              (AdvanceResult.noRow, ⟨CursorState.Exhausted, releaseBorrow h1⟩, true)
          | FetchOutcome.engineErr m =>
              (AdvanceResult.iterationErr m, ⟨CursorState.Exhausted, releaseBorrow h1⟩, true)
          | FetchOutcome.cancelled =>
              (AdvanceResult.cancelledRes, ⟨c.cstate, releaseBorrow h1⟩, true)
      | (r, h1) => (AdvanceResult.borrowFailed r, ⟨c.cstate, h1⟩, false)

/-- Error of a `currentRow()` call outside the `HasRow` state. -/
inductive RowError where
  | invalidState
deriving DecidableEq, Repr

/-- Modelled from the spec: `currentRow()` is only valid in state
`HasRow`; in `Ready` or `Exhausted` it fails with `InvalidState`. -/
def currentRow (c : Cursor) : Except RowError (List RawValue) :=
  match c.cstate with
  | CursorState.HasRow vals => Except.ok vals
  | _ => Except.error RowError.invalidState

/-- Errors of a `getValue` call (spec sections 4.4 and 7). -/
inductive ValueError where
  | indexOutOfRange
  | releasedErr
  | closingErr
deriving DecidableEq, Repr

/-- Modelled from the spec: a RowView over a schema with `columnCount`
columns; it holds a strong back-reference to the owning ResourceHandle and
reads raw column values out of the NativeBuffer. -/
structure RowView where
  owner : ResourceHandle
  columnCount : Nat
  raw : Nat → RawValue

/-- Modelled from the spec: `getValue(columnIndex)` validates
`columnIndex < columnCount` (failing with `IndexOutOfRange` otherwise),
acquires a BorrowGuard on the owning handle, reads and converts the raw
column value, releases the guard, and returns the converted value;
a failed borrow is reported to the caller. -/
def getValue (rv : RowView) (col : Nat) : Except ValueError TypedValue × ResourceHandle :=
  if col < rv.columnCount then
    match acquireBorrow rv.owner with
    | (AcquireResult.granted, h1) =>
        (Except.ok (convert (rv.raw col)), releaseBorrow h1)
    | (AcquireResult.releasedErr, h1) => (Except.error ValueError.releasedErr, h1)
    | (AcquireResult.closingErr, h1) => (Except.error ValueError.closingErr, h1)
  else (Except.error ValueError.indexOutOfRange, rv.owner)

/-- C3: `acquireBorrow()` grants a BorrowGuard exactly when the state is
`Open`; it fails with the `Released` error in state `Closed` and with the
`Closing` error while a release is in progress; on success the
active-borrows counter is incremented in the same atomic step as the
Open-state check, and on failure the handle is untouched. -/
theorem acquireBorrow_grants_iff_open (h : ResourceHandle) :
    ((acquireBorrow h).1 = AcquireResult.granted ↔ h.state = HState.Open) ∧
    (h.state = HState.Closed → (acquireBorrow h).1 = AcquireResult.releasedErr) ∧
    (h.state = HState.Closing → (acquireBorrow h).1 = AcquireResult.closingErr) ∧
    (h.state = HState.Open →
      acquireBorrow h = (AcquireResult.granted,
        { h with activeBorrows := h.activeBorrows + 1, grantCount := h.grantCount + 1 })) ∧
    ((acquireBorrow h).1 ≠ AcquireResult.granted → (acquireBorrow h).2 = h) := by
  obtain ⟨st, ab, rr, fc, gc, rc⟩ := h
  cases st <;> simp [acquireBorrow]

/-- Witness for C3 at an Open, a Closing and a Closed handle. -/
theorem acquireBorrow_grants_iff_open_witness :
    (acquireBorrow ResourceHandle.init).1 = AcquireResult.granted ∧
    (acquireBorrow ⟨HState.Closed, 0, true, 1, 0, 0⟩).1 = AcquireResult.releasedErr ∧
    (acquireBorrow ⟨HState.Closing, 1, true, 0, 1, 0⟩).1 = AcquireResult.closingErr := by
  refine ⟨(acquireBorrow_grants_iff_open ResourceHandle.init).1.mpr rfl,
    (acquireBorrow_grants_iff_open ⟨HState.Closed, 0, true, 1, 0, 0⟩).2.1 rfl,
    (acquireBorrow_grants_iff_open ⟨HState.Closing, 1, true, 0, 1, 0⟩).2.2.1 rfl⟩

/-- C4: every `advance()` and every `getValue()` call releases a granted
BorrowGuard exactly once on every exit path (row, end of results, engine
error, cancellation), so the call leaves the active-borrows counter equal
to its value on entry; when the borrow was granted, exactly one release is
recorded. -/
theorem borrowGuard_released_once (c : Cursor) (engine : FetchOutcome)
    (rv : RowView) (col : Nat) :
    ((advance c engine).2.1.handle.activeBorrows = c.handle.activeBorrows) ∧
    (c.cstate ≠ CursorState.Exhausted → c.handle.state = HState.Open →
      (advance c engine).2.1.handle.releaseCount = c.handle.releaseCount + 1 ∧
      (advance c engine).2.1.handle.grantCount = c.handle.grantCount + 1) ∧
    ((getValue rv col).2.activeBorrows = rv.owner.activeBorrows) ∧
    (col < rv.columnCount → rv.owner.state = HState.Open →
      (getValue rv col).2.releaseCount = rv.owner.releaseCount + 1 ∧
      (getValue rv col).2.grantCount = rv.owner.grantCount + 1) := by
  obtain ⟨cst, st, ab, rr, fc, gc, rc⟩ := c
  obtain ⟨⟨ost, oab, orr, ofc, ogc, orc⟩, cc, raw⟩ := rv
  refine ⟨?_, ?_, ?_, ?_⟩
  · cases cst <;> cases st <;> cases engine <;>
      simp [advance, acquireBorrow, releaseBorrow, doFree] <;>
      split_ifs <;> simp_all
  · intro hne hopen
    cases cst <;> cases st <;> cases engine <;>
      simp_all [advance, acquireBorrow, releaseBorrow, doFree] <;>
      split_ifs <;> simp_all
  · by_cases hlt : col < cc
    · cases ost <;>
        simp [getValue, hlt, acquireBorrow, releaseBorrow, doFree] <;>
        split_ifs <;> simp_all
    · simp [getValue, hlt]
  · intro hlt hopen
    cases ost <;> simp_all [getValue, acquireBorrow, releaseBorrow, doFree] <;>
      split_ifs <;> simp_all

/-- Witness for C4: a Ready cursor on a fresh handle and a column read on
a fresh 7-column row view. -/
theorem borrowGuard_released_once_witness :
    (advance ⟨CursorState.Ready, ResourceHandle.init⟩
      FetchOutcome.cancelled).2.1.handle.activeBorrows =
        ResourceHandle.init.activeBorrows ∧
    (advance ⟨CursorState.Ready, ResourceHandle.init⟩
      FetchOutcome.cancelled).2.1.handle.releaseCount =
        ResourceHandle.init.releaseCount + 1 ∧
    (getValue ⟨ResourceHandle.init, 7, fun _ => RawValue.rNull⟩ 3).2.releaseCount =
      ResourceHandle.init.releaseCount + 1 := by
  have h := borrowGuard_released_once ⟨CursorState.Ready, ResourceHandle.init⟩
    FetchOutcome.cancelled ⟨ResourceHandle.init, 7, fun _ => RawValue.rNull⟩ 3
  exact ⟨h.1, (h.2.1 (by simp) rfl).1, (h.2.2.2 (by decide) rfl).1⟩

/-- C5: `advance()` in the `Exhausted` state always returns "no row"
without invoking the engine's `fetchNextRow` and without changing the
cursor; `currentRow()` in state `Ready` (before the first successful
advance) or `Exhausted` always fails with `InvalidState`. -/
theorem cursor_exhausted_and_invalidState (c : Cursor) (engine : FetchOutcome) :
    (c.cstate = CursorState.Exhausted →
      (advance c engine).1 = AdvanceResult.noRow ∧
      (advance c engine).2.2 = false ∧ (advance c engine).2.1 = c) ∧
    (c.cstate = CursorState.Ready →
      currentRow c = Except.error RowError.invalidState) ∧
    (c.cstate = CursorState.Exhausted →
      currentRow c = Except.error RowError.invalidState) := by
  obtain ⟨cst, h⟩ := c
  cases cst <;> simp [advance, currentRow]

/-- Witness for C5 on an Exhausted and a Ready cursor over a fresh
handle. -/
theorem cursor_exhausted_and_invalidState_witness :
    (advance ⟨CursorState.Exhausted, ResourceHandle.init⟩
      FetchOutcome.endOfResults).1 = AdvanceResult.noRow ∧
    currentRow ⟨CursorState.Ready, ResourceHandle.init⟩ =
      Except.error RowError.invalidState := by
  exact ⟨((cursor_exhausted_and_invalidState ⟨CursorState.Exhausted, ResourceHandle.init⟩
      FetchOutcome.endOfResults).1 rfl).1,
    (cursor_exhausted_and_invalidState ⟨CursorState.Ready, ResourceHandle.init⟩
      FetchOutcome.endOfResults).2.1 rfl⟩

/-- C6: `getValue(columnIndex)` fails with `IndexOutOfRange` exactly when
`columnIndex ≥ columnCount`; on a valid index over an Open handle it
performs the guarded read and returns the converted value. -/
theorem getValue_index_range (rv : RowView) (col : Nat) :
    ((getValue rv col).1 = Except.error ValueError.indexOutOfRange ↔
      rv.columnCount ≤ col) ∧
    (col < rv.columnCount → rv.owner.state = HState.Open →
      (getValue rv col).1 = Except.ok (convert (rv.raw col))) := by
  obtain ⟨⟨ost, oab, orr, ofc, ogc, orc⟩, cc, raw⟩ := rv
  constructor
  · by_cases hlt : col < cc
    · cases ost <;> simp [getValue, hlt, acquireBorrow] <;> omega
    · simp [getValue, hlt]; omega
  · intro hlt hopen
    cases ost <;> simp_all [getValue, acquireBorrow]

/-- Witness for C6: on a 7-column schema (indices 0–6) over a fresh Open
handle, `getValue 7` fails with `IndexOutOfRange` and `getValue 6`
returns the converted value. -/
theorem getValue_index_range_witness :
    (getValue ⟨ResourceHandle.init, 7, fun i => RawValue.rInt i⟩ 7).1 =
      Except.error ValueError.indexOutOfRange ∧
    (getValue ⟨ResourceHandle.init, 7, fun i => RawValue.rInt i⟩ 6).1 =
      Except.ok (TypedValue.vInt 6) := by
  refine ⟨(getValue_index_range ⟨ResourceHandle.init, 7, fun i => RawValue.rInt i⟩ 7).1.mpr
      (by decide), ?_⟩
  have h := (getValue_index_range ⟨ResourceHandle.init, 7, fun i => RawValue.rInt i⟩ 6).2
    (by decide) rfl
  simpa [convert] using h

/-! ## The stress scenario (spec section 8, `TestFinalizerRaceCondition`)

Modelled from the spec: each reader iterates a fresh cursor over its own
handle (15 rows × 7 columns).  Per spec section 5, concurrent cursors over
different handles are fully independent (no global lock serializes
unrelated handles), and per section 4.5 every cursor / view holds a strong
back-reference to its owning handle, so a forced reclamation pass never
fires `requestRelease` on a handle whose reader is still iterating; the
concurrent scenario is therefore the aggregation of the independent
per-reader runs, with reclamation acting on each handle only after its
reader has finished. -/

/-- Rows retrieved and errors observed by one reader or by the whole
scenario. -/
structure ReaderStats where
  rows : Nat
  errs : Nat
deriving DecidableEq, Repr

/-- Read columns `cc - k` through `cc - 1` of one row through fresh
BorrowGuards, threading the handle; returns the number of failed
`getValue` calls and the final handle. -/
def readColsFrom (vals : List RawValue) (cc : Nat) (h : ResourceHandle) :
    Nat → Nat × ResourceHandle
  | 0 => (0, h)
  | Nat.succ k =>
      let out := getValue ⟨h, cc, fun i => vals.getD i RawValue.rNull⟩ (cc - Nat.succ k)
      let rest := readColsFrom vals cc out.2 k
      (match out.1 with
        | Except.ok _ => rest.1
        | Except.error _ => rest.1 + 1, rest.2)

/-- Modelled from the spec: one reader drives its cursor to exhaustion,
reading all `cc` columns of every row; the engine serves the given list of
rows and then end-of-results. -/
def runReader (cc : Nat) (c : Cursor) : List (List RawValue) → ReaderStats
  | [] =>
      match advance c FetchOutcome.endOfResults with
      | (AdvanceResult.noRow, _, _) => ⟨0, 0⟩
      | _ => ⟨0, 1⟩
  | vals :: rest =>
      match advance c (FetchOutcome.row vals) with
      | (AdvanceResult.hasRow, c1, _) =>
          let cols := readColsFrom vals cc c1.handle cc
          let s := runReader cc ⟨c1.cstate, cols.2⟩ rest
          ⟨s.rows + 1, s.errs + cols.1⟩
      | (_, _, _) => ⟨0, 1⟩

/-- One reader over a fresh Open handle serving `numRows` rows of `cc`
columns each. -/
def freshReaderRun (numRows cc : Nat) : ReaderStats :=
  runReader cc ⟨CursorState.Ready, ResourceHandle.init⟩
    (List.replicate numRows (List.replicate cc RawValue.rNull))

/-- Pointwise sum of reader statistics. -/
def addStats (a b : ReaderStats) : ReaderStats :=
  ⟨a.rows + b.rows, a.errs + b.errs⟩

/-- Aggregation of `numReaders` independent readers, each over its own
fresh handle. -/
def stressScenario (numReaders numRows cc : Nat) : ReaderStats :=
  (List.replicate numReaders (freshReaderRun numRows cc)).foldl addStats ⟨0, 0⟩

/-- C7: in the stress scenario — 20 readers, each iterating a fresh cursor
over its own 15-row, 7-column handle, with reclamation passes forced
concurrently (which, by the keep-alive back-references, act on a handle
only once its reader has finished) — every reader retrieves all 15 of its
rows with no error, and in total 20 × 15 rows are retrieved with 0
errors. -/
theorem stress_scenario_counts :
    freshReaderRun 15 7 = ⟨15, 0⟩ ∧
    stressScenario 20 15 7 = ⟨20 * 15, 0⟩ := by
  exact ⟨by decide, by decide⟩

/-! ## PreparedStatement (src/prepared_statement.go) -/

/-- Abstract model of the C-side `lbug_prepared_statement` value. -/
structure CPreparedStatement where
  cid : Nat
deriving DecidableEq, Repr

/-- Abstract model of the Go `Connection` the statement points back to. -/
structure Connection where
  connId : Nat
deriving DecidableEq, Repr

/-- Embedding of the Go struct `PreparedStatement`
(src/prepared_statement.go): the C-side statement value, the connection
back-reference, and the `isClosed` flag. -/
structure PreparedStatement where
  cPreparedStatement : CPreparedStatement
  connection : Connection
  isClosed : Bool
deriving DecidableEq, Repr

/-- A prepared statement together with the number of
`lbug_prepared_statement_destroy` invocations made so far (the external C
call performed by `Close`). -/
structure StmtWorld where
  stmt : PreparedStatement
  destroyCount : Nat
deriving DecidableEq, Repr

/-- Embedding of `(stmt *PreparedStatement) Close()`: if `stmt.isClosed`
return; otherwise call `lbug_prepared_statement_destroy` and set
`stmt.isClosed = true`. -/
def Close (w : StmtWorld) : StmtWorld :=
  if w.stmt.isClosed then w
  else { stmt := { w.stmt with isClosed := true },
         destroyCount := w.destroyCount + 1 }

/-- Iterated disposal: `n` successive `Close` calls. -/
def closeSeq (w : StmtWorld) : Nat → StmtWorld
  | 0 => w
  | Nat.succ n => closeSeq (Close w) n

/-- C8: explicit disposal is idempotent.  A second `requestRelease` on a
ResourceHandle is a no-op (so the buffer is not freed again), a
reclamation-path release after an explicit disposal — which goes through
the same `requestRelease` protocol — is likewise a no-op, and a second
`PreparedStatement.Close` is a no-op that does not invoke the underlying
destroy again. -/
theorem explicit_disposal_idempotent :
    (∀ h : ResourceHandle, requestRelease (requestRelease h) = requestRelease h) ∧
    (∀ h : ResourceHandle,
      (requestRelease (requestRelease h)).freeCount = (requestRelease h).freeCount) ∧
    (∀ w : StmtWorld, Close (Close w) = Close w) ∧
    (∀ w : StmtWorld, (Close (Close w)).destroyCount = (Close w).destroyCount) := by
  have hrr : ∀ h : ResourceHandle, requestRelease (requestRelease h) = requestRelease h := by
    intro h
    obtain ⟨st, ab, rr, fc, gc, rc⟩ := h
    cases st <;> simp [requestRelease, doFree] <;> split_ifs <;> simp_all [requestRelease]
  have hcl : ∀ w : StmtWorld, Close (Close w) = Close w := by
    intro w
    by_cases hc : w.stmt.isClosed <;> simp [Close, hc]
  exact ⟨hrr, fun h => by rw [hrr h], hcl, fun w => by rw [hcl w]⟩

/-- C9: `Close` modifies only the `isClosed` field — it sets it to `true`,
never resets it, and leaves the connection back-reference and the C-side
statement value unchanged; over any sequence of `Close` calls the
underlying `lbug_prepared_statement_destroy` is invoked at most once. -/
theorem close_frame_and_destroy_at_most_once (w : StmtWorld) (n : Nat) :
    (Close w).stmt.connection = w.stmt.connection ∧
    (Close w).stmt.cPreparedStatement = w.stmt.cPreparedStatement ∧
    (Close w).stmt.isClosed = true ∧
    (w.stmt.isClosed = true → Close w = w) ∧
    (closeSeq w n).destroyCount ≤ w.destroyCount + (if w.stmt.isClosed then 0 else 1) := by
  refine ⟨?_, ?_, ?_, ?_, ?_⟩
  · by_cases hc : w.stmt.isClosed <;> simp [Close, hc]
  · by_cases hc : w.stmt.isClosed <;> simp [Close, hc]
  · by_cases hc : w.stmt.isClosed <;> simp [Close, hc]
  · intro hc; simp [Close, hc]
  · induction n generalizing w with
    | zero => simp only [closeSeq]; split_ifs <;> omega
    | succ k ih =>
        have hb := ih (Close w)
        by_cases hc : w.stmt.isClosed
        · simp_all [closeSeq, Close]
        · simp_all [closeSeq, Close]

/-- Witness for C9: a closed statement world, two Close calls. -/
theorem close_frame_and_destroy_at_most_once_witness :
    Close ⟨⟨⟨5⟩, ⟨3⟩, true⟩, 1⟩ = ⟨⟨⟨5⟩, ⟨3⟩, true⟩, 1⟩ ∧
    (closeSeq ⟨⟨⟨5⟩, ⟨3⟩, false⟩, 0⟩ 2).destroyCount ≤ 0 + 1 := by
  have h := close_frame_and_destroy_at_most_once ⟨⟨⟨5⟩, ⟨3⟩, true⟩, 1⟩ 2
  have h2 := close_frame_and_destroy_at_most_once ⟨⟨⟨5⟩, ⟨3⟩, false⟩, 0⟩ 2
  exact ⟨h.2.2.2.1 rfl, by simpa using h2.2.2.2.2⟩

/-! ## runLargeQueryAndIterate (src/finalizer_race_test.go)

Embedding of the Go iteration driver: the engine behaviour (`Query`,
`HasNext`/`Next`, `GetValue`) is supplied as data — a query outcome and,
for each delivered row, the outcome of `Next` and of each `GetValue` —
and the control flow of the Go function is reproduced over it, with an
access log recording every `Next` and `GetValue` call made. -/

/-- An error returned by the underlying engine binding. -/
structure EngineError where
  msg : String
deriving DecidableEq, Repr

/-- One row as delivered by the `HasNext`/`Next` iteration: either
`Next()` fails, or it yields a row whose `GetValue` at each column index
either fails or returns a typed value. -/
inductive RowOutcome where
  | nextErr (e : EngineError)
  | row (get : Nat → Except EngineError TypedValue)

/-- The Go errors produced by `runLargeQueryAndIterate` through
`fmt.Errorf("... %w", err)`: each wraps the underlying engine error. -/
inductive GoError where
  | queryFailed (e : EngineError)
  | nextFailed (row : Nat) (e : EngineError)
  | getValueFailed (col : Nat) (row : Nat) (e : EngineError)

/-- One access made by the iteration: a `Next()` call at a row index, or
a `GetValue(col)` call on that row. -/
inductive Access where
  | nextCall (row : Nat)
  | getValueCall (row : Nat) (col : Nat)
deriving DecidableEq, Repr

/-- Row index touched by an access. -/
def accessRow : Access → Nat
  | Access.nextCall i => i
  | Access.getValueCall i _ => i

/-- The inner `for col := 0; col < 7` loop, generalized: scan `GetValue`
over `k` columns starting at `first` on row `rowIdx`, stopping at the
first failure; returns the failing column and error, if any, and the log
of `GetValue` calls made, in order. -/
def scanCols (get : Nat → Except EngineError TypedValue) (rowIdx : Nat) :
    Nat → Nat → Option (Nat × EngineError) × List Access
  | _, 0 => (none, [])
  | first, Nat.succ k =>
      match get first with
      | Except.error e => (some (first, e), [Access.getValueCall rowIdx first])
      | Except.ok _ =>
          let rest := scanCols get rowIdx (first + 1) k
          (rest.1, Access.getValueCall rowIdx first :: rest.2)

/-- The `for result.HasNext()` loop of `runLargeQueryAndIterate`: on each
row, `Next()` (wrapping its error on failure), then `GetValue(col)` for
`col = 0 .. 6` (wrapping the first failing one), counting rows. -/
def iterateRows : List RowOutcome → Nat → Option GoError × List Access
  | [], _ => (none, [])
  | RowOutcome.nextErr e :: _, rowCount =>
      (some (GoError.nextFailed rowCount e), [Access.nextCall rowCount])
  | RowOutcome.row get :: rest, rowCount =>
      match scanCols get rowCount 0 7 with
      | (some (col, e), acc) =>
          (some (GoError.getValueFailed col rowCount e), Access.nextCall rowCount :: acc)
      | (none, acc) =>
          let r := iterateRows rest (rowCount + 1)
          (r.1, (Access.nextCall rowCount :: acc) ++ r.2)

/-- Embedding of `runLargeQueryAndIterate(conn)`: run the query (wrapping
its error on failure), then iterate all rows. -/
def runLargeQueryAndIterate (q : Except EngineError (List RowOutcome)) :
    Option GoError × List Access :=
  match q with
  | Except.error e => (some (GoError.queryFailed e), [])
  | Except.ok rows => iterateRows rows 0

/-- A row on which the loop body fully succeeds: `Next()` succeeded and
`GetValue` returns a value at every column 0–6. -/
def RowOk : RowOutcome → Prop
  | RowOutcome.nextErr _ => False
  | RowOutcome.row get => ∀ c < 7, ∃ v, get c = Except.ok v

theorem scanCols_none (get : Nat → Except EngineError TypedValue) (rowIdx : Nat)
    (k : Nat) : ∀ first, (scanCols get rowIdx first k).1 = none ↔
      ∀ c, first ≤ c → c < first + k → ∃ v, get c = Except.ok v := by
  induction k with
  | zero => intro first; simp [scanCols]; omega
  | succ m ih =>
      intro first
      cases hg : get first with
      | error e =>
          simp only [scanCols, hg]
          constructor
          · intro hc; cases hc
          · intro hall
            obtain ⟨v, hv⟩ := hall first (le_refl first) (by omega)
            rw [hg] at hv; cases hv
      | ok v =>
          simp only [scanCols, hg]
          rw [ih (first + 1)]
          constructor
          · intro hall c hc1 hc2
            rcases Nat.eq_or_lt_of_le hc1 with heq | hlt
            · exact ⟨v, heq ▸ hg⟩
            · exact hall c hlt (by omega)
          · intro hall c hc1 hc2
            exact hall c (by omega) (by omega)

theorem scanCols_some (get : Nat → Except EngineError TypedValue) (rowIdx : Nat)
    (k : Nat) : ∀ first col e, (scanCols get rowIdx first k).1 = some (col, e) →
      first ≤ col ∧ col < first + k ∧ get col = Except.error e ∧
      ∀ c, first ≤ c → c < col → ∃ v, get c = Except.ok v := by
  induction k with
  | zero => intro first col e hc; cases hc
  | succ m ih =>
      intro first col e hc
      cases hg : get first with
      | error e2 =>
          simp only [scanCols, hg] at hc
          obtain ⟨rfl, rfl⟩ : first = col ∧ e2 = e := by
            constructor <;> injection hc with h1 <;> injection h1 <;> simp_all
          exact ⟨le_refl _, by omega, hg, fun c hc1 hc2 => absurd hc1 (by omega)⟩
      | ok v =>
          simp only [scanCols, hg] at hc
          obtain ⟨h1, h2, h3, h4⟩ := ih (first + 1) col e hc
          refine ⟨by omega, by omega, h3, ?_⟩
          intro c hc1 hc2
          rcases Nat.eq_or_lt_of_le hc1 with heq | hlt
          · exact ⟨v, heq ▸ hg⟩
          · exact h4 c hlt hc2

theorem scanCols_log (get : Nat → Except EngineError TypedValue) (rowIdx : Nat)
    (k : Nat) : ∀ first, ∀ a ∈ (scanCols get rowIdx first k).2,
      ∃ c, a = Access.getValueCall rowIdx c ∧ first ≤ c ∧ c < first + k ∧
        ∀ col e, (scanCols get rowIdx first k).1 = some (col, e) → c ≤ col := by
  induction k with
  | zero => intro first a ha; simp [scanCols] at ha
  | succ m ih =>
      intro first a ha
      cases hg : get first with
      | error e =>
          simp only [scanCols, hg, List.mem_singleton] at ha
          subst ha
          refine ⟨first, rfl, le_refl _, by omega, ?_⟩
          intro col e2 hc
          simp only [scanCols, hg] at hc
          have : first = col ∧ e = e2 := by simpa using hc
          omega
      | ok v =>
          simp only [scanCols, hg, List.mem_cons] at ha
          rcases ha with rfl | ha
          · refine ⟨first, rfl, le_refl _, by omega, ?_⟩
            intro col e2 hc
            simp only [scanCols, hg] at hc
            have := scanCols_some get rowIdx m (first + 1) col e2 hc
            omega
          · obtain ⟨c, hc1, hc2, hc3, hc4⟩ := ih (first + 1) a ha
            refine ⟨c, hc1, by omega, by omega, ?_⟩
            intro col e2 hc
            simp only [scanCols, hg] at hc
            exact hc4 col e2 hc

theorem rowOk_iff_scan_none (get : Nat → Except EngineError TypedValue) (rowIdx : Nat) :
    (scanCols get rowIdx 0 7).1 = none ↔ RowOk (RowOutcome.row get) := by
  rw [scanCols_none get rowIdx 7 0]
  constructor
  · intro h c hc; exact h c (Nat.zero_le c) (by omega)
  · intro h c _ hc; exact h c (by omega)

theorem iterateRows_none (rows : List RowOutcome) :
    ∀ k, (iterateRows rows k).1 = none ↔ ∀ r ∈ rows, RowOk r := by
  induction rows with
  | nil => intro k; simp [iterateRows]
  | cons r rest ih =>
      intro k
      cases r with
      | nextErr e => simp [iterateRows, RowOk]
      | row get =>
          cases hsc : scanCols get k 0 7 with
          | mk o acc =>
              cases o with
              | some p =>
                  obtain ⟨col, e⟩ := p
                  simp only [iterateRows, hsc]
                  constructor
                  · intro hc; simp at hc
                  · intro hall
                    have hok : RowOk (RowOutcome.row get) := hall _ (List.mem_cons_self _ _)
                    have hnone := (rowOk_iff_scan_none get k).mpr hok
                    rw [hsc] at hnone
                    simp at hnone
              | none =>
                  simp only [iterateRows, hsc]
                  rw [ih (k + 1)]
                  constructor
                  · intro hall r hr
                    rcases List.mem_cons.mp hr with rfl | hr
                    · exact (rowOk_iff_scan_none get k).mp (by rw [hsc])
                    · exact hall r hr
                  · intro hall r hr
                    exact hall r (List.mem_cons_of_mem _ hr)

theorem iterateRows_log_cols (rows : List RowOutcome) :
    ∀ k, ∀ a ∈ (iterateRows rows k).2, ∀ i c, a = Access.getValueCall i c → c < 7 := by
  induction rows with
  | nil => intro k a ha; simp [iterateRows] at ha
  | cons r rest ih =>
      intro k a ha i c hac
      cases r with
      | nextErr e =>
          simp only [iterateRows, List.mem_singleton] at ha
          subst ha; simp at hac
      | row get =>
          cases hsc : scanCols get k 0 7 with
          | mk o acc =>
              cases o with
              | some p =>
                  obtain ⟨col, e⟩ := p
                  simp only [iterateRows, hsc, List.mem_cons] at ha
                  rcases ha with rfl | ha
                  · simp at hac
                  · obtain ⟨c2, hc1, _, hc3, _⟩ :=
                      scanCols_log get k 7 0 a (by rw [hsc]; exact ha)
                    subst hac
                    have : i = k ∧ c = c2 := by simpa using hc1
                    omega
              | none =>
                  simp only [iterateRows, hsc, List.mem_cons, List.mem_append] at ha
                  rcases ha with (rfl | ha) | ha
                  · simp at hac
                  · obtain ⟨c2, hc1, _, hc3, _⟩ :=
                      scanCols_log get k 7 0 a (by rw [hsc]; exact ha)
                    subst hac
                    have : i = k ∧ c = c2 := by simpa using hc1
                    omega
                  · exact ih (k + 1) a ha i c hac

theorem iterateRows_nextFailed (rows : List RowOutcome) :
    ∀ k i e, (iterateRows rows k).1 = some (GoError.nextFailed i e) →
      k ≤ i ∧ rows.get? (i - k) = some (RowOutcome.nextErr e) ∧
      ∀ a ∈ (iterateRows rows k).2, accessRow a ≤ i := by
  induction rows with
  | nil => intro k i e h; simp [iterateRows] at h
  | cons r rest ih =>
      intro k i e h
      cases r with
      | nextErr e2 =>
          simp only [iterateRows] at h
          have : k = i ∧ e2 = e := by simpa using h
          obtain ⟨rfl, rfl⟩ := this
          refine ⟨le_refl _, by simp, ?_⟩
          intro a ha
          simp only [iterateRows, List.mem_singleton] at ha
          subst ha; simp [accessRow]
      | row get =>
          cases hsc : scanCols get k 0 7 with
          | mk o acc =>
              cases o with
              | some p =>
                  obtain ⟨col, e2⟩ := p
                  simp only [iterateRows, hsc] at h
                  simp at h
              | none =>
                  simp only [iterateRows, hsc] at h
                  obtain ⟨hk, hget, hlog⟩ := ih (k + 1) i e h
                  refine ⟨by omega, ?_, ?_⟩
                  · have hik : i - k = (i - (k + 1)) + 1 := by omega
                    rw [hik]
                    simpa using hget
                  · intro a ha
                    simp only [iterateRows, hsc, List.mem_cons, List.mem_append] at ha
                    rcases ha with (rfl | ha) | ha
                    · simp [accessRow]; omega
                    · obtain ⟨c2, hc1, _, _, _⟩ :=
                        scanCols_log get k 7 0 a (by rw [hsc]; exact ha)
                      subst hc1
                      simp [accessRow]; omega
                    · exact hlog a ha

theorem iterateRows_getValueFailed (rows : List RowOutcome) :
    ∀ k i c e, (iterateRows rows k).1 = some (GoError.getValueFailed c i e) →
      k ≤ i ∧
      (∃ get, rows.get? (i - k) = some (RowOutcome.row get) ∧
        get c = Except.error e ∧ c < 7 ∧ ∀ c2, c2 < c → ∃ v, get c2 = Except.ok v) ∧
      ∀ a ∈ (iterateRows rows k).2, accessRow a ≤ i ∧
        ∀ c2, a = Access.getValueCall i c2 → c2 ≤ c := by
  induction rows with
  | nil => intro k i c e h; simp [iterateRows] at h
  | cons r rest ih =>
      intro k i c e h
      cases r with
      | nextErr e2 =>
          simp only [iterateRows] at h
          simp at h
      | row get =>
          cases hsc : scanCols get k 0 7 with
          | mk o acc =>
              cases o with
              | some p =>
                  obtain ⟨col, e2⟩ := p
                  simp only [iterateRows, hsc] at h
                  have : col = c ∧ k = i ∧ e2 = e := by simpa using h
                  obtain ⟨rfl, rfl, rfl⟩ := this
                  have hs := scanCols_some get k 7 0 col e2 (by rw [hsc])
                  refine ⟨le_refl _, ⟨get, by simp, hs.2.2.1, by omega, ?_⟩, ?_⟩
                  · intro c2 hc2
                    exact hs.2.2.2 c2 (Nat.zero_le c2) hc2
                  · intro a ha
                    simp only [iterateRows, hsc, List.mem_cons] at ha
                    rcases ha with rfl | ha
                    · exact ⟨by simp [accessRow], by intro c2 hc; simp at hc⟩
                    · obtain ⟨c3, hc1, _, _, hc4⟩ :=
                        scanCols_log get k 7 0 a (by rw [hsc]; exact ha)
                      subst hc1
                      refine ⟨by simp [accessRow], ?_⟩
                      intro c2 hc
                      have : k = k ∧ c3 = c2 := by simpa using hc
                      have hle := hc4 col e2 (by rw [hsc])
                      omega
              | none =>
                  simp only [iterateRows, hsc] at h
                  obtain ⟨hk, ⟨get2, hget2, hval, hlt7, hfirst⟩, hlog⟩ :=
                    ih (k + 1) i c e h
                  refine ⟨by omega, ⟨get2, ?_, hval, hlt7, hfirst⟩, ?_⟩
                  · have hik : i - k = (i - (k + 1)) + 1 := by omega
                    rw [hik]
                    simpa using hget2
                  · intro a ha
                    simp only [iterateRows, hsc, List.mem_cons, List.mem_append] at ha
                    rcases ha with (rfl | ha) | ha
                    · refine ⟨by simp [accessRow]; omega, ?_⟩
                      intro c2 hc; simp at hc
                    · obtain ⟨c3, hc1, _, _, _⟩ :=
                        scanCols_log get k 7 0 a (by rw [hsc]; exact ha)
                      subst hc1
                      refine ⟨by simp [accessRow]; omega, ?_⟩
                      intro c2 hc
                      have : k = i ∧ c3 = c2 := by simpa using hc
                      omega
                    · exact hlog a ha

/-- C10: `runLargeQueryAndIterate` returns nil exactly when the query
succeeds and, for every row delivered by HasNext/Next, `Next()` succeeds
and `GetValue(col)` succeeds for every column 0–6; a failed query is
wrapped and returned; `GetValue` is never called with an index above 6;
and on the first `Next` or `GetValue` failure the returned error wraps the
underlying engine error of that exact first failure and no access to any
later row — nor to any later column of the failing row — is performed. -/
theorem runLargeQueryAndIterate_spec (q : Except EngineError (List RowOutcome)) :
    ((runLargeQueryAndIterate q).1 = none ↔
      ∃ rows, q = Except.ok rows ∧ ∀ r ∈ rows, RowOk r) ∧
    (∀ e, q = Except.error e →
      (runLargeQueryAndIterate q).1 = some (GoError.queryFailed e)) ∧
    (∀ a ∈ (runLargeQueryAndIterate q).2, ∀ i c, a = Access.getValueCall i c → c < 7) ∧
    (∀ rows i e, q = Except.ok rows →
      (runLargeQueryAndIterate q).1 = some (GoError.nextFailed i e) →
      rows.get? i = some (RowOutcome.nextErr e) ∧
      ∀ a ∈ (runLargeQueryAndIterate q).2, accessRow a ≤ i) ∧
    (∀ rows i c e, q = Except.ok rows →
      (runLargeQueryAndIterate q).1 = some (GoError.getValueFailed c i e) →
      (∃ get, rows.get? i = some (RowOutcome.row get) ∧ get c = Except.error e ∧
        c < 7 ∧ ∀ c2, c2 < c → ∃ v, get c2 = Except.ok v) ∧
      ∀ a ∈ (runLargeQueryAndIterate q).2, accessRow a ≤ i ∧
        ∀ c2, a = Access.getValueCall i c2 → c2 ≤ c) := by
  cases q with
  | error e =>
      refine ⟨by simp [runLargeQueryAndIterate], ?_, ?_, ?_, ?_⟩
      · intro e2 he2
        have : e = e2 := by simpa using he2
        subst this
        rfl
      · intro a ha
        simp [runLargeQueryAndIterate] at ha
      · intro rows i e2 hq
        simp at hq
      · intro rows i c e2 hq
        simp at hq
  | ok rows =>
      refine ⟨?_, ?_, ?_, ?_, ?_⟩
      · rw [show (runLargeQueryAndIterate (Except.ok rows)).1 = (iterateRows rows 0).1 from rfl,
          iterateRows_none rows 0]
        simp
      · intro e2 he2
        simp at he2
      · intro a ha i c hac
        exact iterateRows_log_cols rows 0 a ha i c hac
      · intro rows2 i e hq h
        obtain rfl : rows = rows2 := by simpa using hq
        obtain ⟨_, hget, hlog⟩ := iterateRows_nextFailed rows 0 i e h
        exact ⟨by simpa using hget, hlog⟩
      · intro rows2 i c e hq h
        obtain rfl : rows = rows2 := by simpa using hq
        obtain ⟨_, ⟨get, hget, hval, hlt, hfirst⟩, hlog⟩ :=
          iterateRows_getValueFailed rows 0 i c e h
        exact ⟨⟨get, by simpa using hget, hval, hlt, hfirst⟩, hlog⟩

/-- Witness for C10: a failed query is wrapped, an empty successful result
returns nil, a `Next` failure at row 0 is located exactly, and a column
access of a successful one-row run stays below index 7. -/
theorem runLargeQueryAndIterate_spec_witness :
    (runLargeQueryAndIterate (Except.error ⟨"boom"⟩)).1 =
      some (GoError.queryFailed ⟨"boom"⟩) ∧
    (runLargeQueryAndIterate (Except.ok [])).1 = none ∧
    List.get? [RowOutcome.nextErr ⟨"n"⟩] 0 = some (RowOutcome.nextErr ⟨"n"⟩) ∧
    (0 : Nat) < 7 := by
  refine ⟨(runLargeQueryAndIterate_spec (Except.error ⟨"boom"⟩)).2.1 ⟨"boom"⟩ rfl,
    (runLargeQueryAndIterate_spec (Except.ok [])).1.mpr ⟨[], rfl, by simp⟩,
    ((runLargeQueryAndIterate_spec (Except.ok [RowOutcome.nextErr ⟨"n"⟩])).2.2.2.1
      [RowOutcome.nextErr ⟨"n"⟩] 0 ⟨"n"⟩ rfl rfl).1,
    (runLargeQueryAndIterate_spec (Except.ok [RowOutcome.row
        (fun _ => Except.ok TypedValue.vNull)])).2.2.1
      (Access.getValueCall 0 0) (by decide) 0 0 rfl⟩

end Lbug
